import Mathlib

/-!
Shallow embedding of the checks HTTP controller
(`src/backend/apid/controllers/checks.go`).

The controller's observable behaviour is modelled as pure functions from a
request description, an authorization capability set, and a store state to a
triple `(response events, store calls, final store state)`:

* response events record, in order, everything the handler writes to the
  `http.ResponseWriter` (header sets, `http.Error`, `http.NotFound`,
  `authorization.UnauthorizedAccessToResource`, body writes);
* store calls record, in order, every call made to the store interface,
  mutating (`update`, `deleteByName`) and read-only (`getAll`, `getByName`);
* the final store state reflects the mutations the handler performed.

External collaborators (the store backend, JSON marshalling, body reading and
decoding, resource self-validation, the capability engine) are modelled at
their interface boundaries: fallible operations take their outcome from
injectable fields or function parameters, so every path of the Go code is
reachable in the model.
-/

namespace Checks

/-- Model of `types.CheckConfig`: an opaque named configuration record.  Only the name
is interpreted by the controller (it is the store key); the rest of the record
is opaque payload. -/
structure CheckConfig where
  name : String
  payload : String := ""
  deriving DecidableEq, Repr

/-- The capability interface of `authorization.Checks.WithContext(ctx)`:
`CanList`, `CanRead`, `CanCreate`, `CanUpdate`, `CanDelete`. -/
structure Abilities where
  canList : Bool
  canRead : CheckConfig → Bool
  canCreate : CheckConfig → Bool
  canUpdate : CheckConfig → Bool
  canDelete : Bool

/-- HTTP methods routed to the two handlers. -/
inductive Method where
  | get
  | put
  | post
  | delete
  deriving DecidableEq, Repr

/-- Store state plus injectable backend failures, one per store operation used
by the controller (`GetCheckConfigs`, `GetCheckConfigByName`,
`UpdateCheckConfig`, `DeleteCheckConfigByName`).  A `some msg` makes the
corresponding call return the error `msg`. -/
structure Store where
  checks : List CheckConfig
  getAllErr : Option String := none
  getByNameErr : Option String := none
  updateErr : Option String := none
  deleteErr : Option String := none
  deriving DecidableEq, Repr

/-- One call made to the store interface. -/
inductive StoreCall where
  | getAll
  | getByName (name : String)
  | update (check : CheckConfig)
  | deleteByName (name : String)
  deriving DecidableEq, Repr

/-- One write to the `http.ResponseWriter`, in program order. -/
inductive RespEvent where
  /-- Event for `w.Header().Set(key, value)`. -/
  | setHeader (key value : String)
  /-- Event for `http.Error(w, msg, code)`. -/
  | httpError (msg : String) (code : Nat)
  /-- Event for `http.NotFound(w, r)` (404). -/
  | notFound
  /-- Event for `authorization.UnauthorizedAccessToResource(w)` (401/403). -/
  | unauthorized
  /-- Event for `fmt.Fprintf(w, body)`. -/
  | write (body : String)
  deriving DecidableEq, Repr

/-- The outcome of reading and JSON-decoding the request body
(`ioutil.ReadAll` then `json.Unmarshal` into a fresh `CheckConfig`). -/
inductive BodyOutcome where
  /-- Outcome when `ioutil.ReadAll` failed. -/
  | readError (msg : String)
  /-- Outcome when `json.Unmarshal` failed. -/
  | decodeError (msg : String)
  /-- Outcome when the body decodes to this candidate resource. -/
  | decoded (check : CheckConfig)
  deriving DecidableEq, Repr

/-- Result of `GetCheckConfigByName` on success: the first stored check with the
given name, or `none` (Go `nil`) when absent. -/
def findCheck (checks : List CheckConfig) (name : String) : Option CheckConfig :=
  checks.find? (fun c => c.name == name)

/-- Modelled from the spec: the store's upsert keyed by `name`
(`Store{... Upsert(ctx,resource) ...}`; the store implementation is not part
of the counted sources).  Replaces the stored record with the same name, or
appends when none exists. -/
def upsertByName (checks : List CheckConfig) (c : CheckConfig) : List CheckConfig :=
  match checks with
  | [] => [c]
  | x :: xs => if x.name = c.name then c :: xs else x :: upsertByName xs c

/-- Modelled from the spec: the store's delete keyed by `name`
(`Store{... DeleteByName(ctx,name) ...}`; the store implementation is not part
of the counted sources). -/
def deleteByName (checks : List CheckConfig) (name : String) : List CheckConfig :=
  checks.filter (fun c => ¬ c.name = name)

/-- The in-place filtering loop of `rejectChecks`, indexed form:

```go
for i := 0; i < len(*records); i++ {
    if !predicate((*records)[i]) {
        *records = append((*records)[:i], (*records)[i+1:]...)
        i--
    }
}
```

`l.take i ++ l.drop (i+1)` is `append((*records)[:i], (*records)[i+1:]...)`;
the `i--` followed by the loop's `i++` leaves `i` unchanged on a removal. -/
def rejectChecksAux (predicate : CheckConfig → Bool) (i : Nat)
    (l : List CheckConfig) : List CheckConfig :=
  if h : i < l.length then
    if predicate (l.get ⟨i, h⟩) then
      rejectChecksAux predicate (i + 1) l
    else
      rejectChecksAux predicate i (l.take i ++ l.drop (i + 1))
  else
    l
termination_by l.length - i
decreasing_by
  · omega
  · simp only [List.length_append, List.length_take, List.length_drop]
    omega

/-- Model of `rejectChecks(records, predicate)`: removes from the slice every record
failing the predicate, by forward iteration with index correction. -/
def rejectChecks (records : List CheckConfig)
    (predicate : CheckConfig → Bool) : List CheckConfig :=
  rejectChecksAux predicate 0 records

/-- The `many` handler (requests to `/checks`; registered for GET only). -/
def many (method : Method) (ab : Abilities) (st : Store)
    (marshalList : List CheckConfig → Except String String) :
    List RespEvent × List StoreCall × Store :=
  if method = .get ∧ ab.canList = false then
    ([.unauthorized], [], st)
  else
    match st.getAllErr with
    | some e => ([.httpError e 500], [.getAll], st)
    | none =>
      let checks := rejectChecks st.checks ab.canRead
      -- checksBytes, err := json.Marshal(checks); if err != nil { http.Error(...) }
      -- NOTE: the Go error branch has no `return`; execution falls through to
      -- the header set and the body write with `checksBytes == nil`.
      let outcome :=
        match marshalList checks with
        | .error e => ([RespEvent.httpError e 500], "")
        | .ok bs => ([], bs)
      (outcome.1 ++ [.setHeader "Content-Type" "application/json", .write outcome.2],
        [.getAll], st)

/-- The PUT/POST branch of `single`'s method switch, with the `check` variable
as it stands when the switch is reached (the lookup block only runs for GET
and DELETE, so `single` always passes `none` here). -/
def upsertBranch (body : BodyOutcome) (validate : CheckConfig → Option String)
    (ab : Abilities) (st : Store) (check : Option CheckConfig)
    (calls : List StoreCall) :
    List RespEvent × List StoreCall × Store :=
  match body with
  | .readError e => ([.httpError e 500], calls, st)
  | .decodeError e => ([.httpError e 400], calls, st)
  | .decoded newCheck =>
    match validate newCheck with
    | some e => ([.httpError e 400], calls, st)
    | none =>
      -- switch { case check == nil && !CanCreate(newCheck): fallthrough
      --          case check != nil && !CanUpdate(newCheck): unauthorized }
      if (check.isNone && !ab.canCreate newCheck)
          || (check.isSome && !ab.canUpdate newCheck) then
        ([.unauthorized], calls, st)
      else
        match st.updateErr with
        | some e => ([.httpError e 500], calls ++ [.update newCheck], st)
        | none =>
          ([], calls ++ [.update newCheck], { st with checks := upsertByName st.checks newCheck })

/-- The `single` handler (requests to `/checks/{name}` for GET, PUT, POST and
DELETE, and to `/checks` for POST, where the `name` route variable is empty). -/
def single (method : Method) (name : String) (body : BodyOutcome)
    (validate : CheckConfig → Option String) (ab : Abilities) (st : Store)
    (marshal : CheckConfig → Except String String) :
    List RespEvent × List StoreCall × Store :=
  if method = .delete ∧ ab.canDelete = false then
    ([.unauthorized], [], st)
  else if method = .get ∨ method = .delete then
    -- check, err = Store.GetCheckConfigByName(ctx, name)
    match st.getByNameErr with
    | some e => ([.httpError e 500], [.getByName name], st)
    | none =>
      match findCheck st.checks name with
      | none => ([.notFound], [.getByName name], st)
      | some check =>
        match method with
        | .get =>
          match marshal check with
          | .error e => ([.httpError e 500], [.getByName name], st)
          | .ok bs =>
            if ab.canRead check then
              ([.write bs], [.getByName name], st)
            else
              ([.unauthorized], [.getByName name], st)
        | _ =>
          -- DELETE: Store.DeleteCheckConfigByName(ctx, name)
          match st.deleteErr with
          | some e => ([.httpError e 500], [.getByName name, .deleteByName name], st)
          | none =>
            ([], [.getByName name, .deleteByName name],
              { st with checks := deleteByName st.checks name })
  else
    -- PUT or POST: the lookup above did not run, so `check` is still nil.
    upsertBranch body validate ab st none []

end Checks

namespace Checks

/-- Invariant of the `rejectChecks` loop: when every index below `i` already
satisfies the predicate, the loop leaves the prefix alone and filters the
suffix. -/
theorem rejectChecksAux_eq (p : CheckConfig → Bool) :
    ∀ (n i : Nat) (l : List CheckConfig), l.length - i ≤ n →
    (∀ j (hj : j < l.length), j < i → p (l.get ⟨j, hj⟩) = true) →
    rejectChecksAux p i l = l.take i ++ (l.drop i).filter p := by
  intro n
  induction n with
  | zero =>
    intro i l hn _
    have hle : l.length ≤ i := by omega
    rw [rejectChecksAux, dif_neg (by omega), List.take_of_length_le hle,
      List.drop_eq_nil_of_le hle]
    simp
  | succ n ih =>
    intro i l hn hpre
    rw [rejectChecksAux]
    by_cases h : i < l.length
    · rw [dif_pos h]
      by_cases hp : p (l.get ⟨i, h⟩) = true
      · rw [if_pos hp]
        rw [ih (i + 1) l (by omega) ?_]
        · rw [List.take_succ, List.drop_eq_getElem_cons h,
            List.filter_cons_of_pos (by simpa [List.get_eq_getElem] using hp),
            List.getElem?_eq_getElem h]
          simp only [Option.toList_some, List.append_assoc, List.singleton_append]
        · intro j hj hji
          rcases Nat.lt_succ_iff_lt_or_eq.mp hji with hlt | heq
          · exact hpre j hj hlt
          · subst heq; exact hp
      · rw [if_neg hp]
        have hlti : (l.take i).length = i := by
          rw [List.length_take]; omega
        rw [ih i (l.take i ++ l.drop (i + 1)) ?_ ?_]
        · rw [List.take_left' hlti, List.drop_left' hlti,
            List.drop_eq_getElem_cons h,
            List.filter_cons_of_neg (by simpa [List.get_eq_getElem] using hp)]
        · simp only [List.length_append, List.length_take, List.length_drop]
          omega
        · intro j hj hji
          have hjt : j < (l.take i).length := by omega
          have hjl : j < l.length := by omega
          have hget : (l.take i ++ l.drop (i + 1)).get ⟨j, hj⟩ = l.get ⟨j, hjl⟩ := by
            simp [List.get_eq_getElem, List.getElem_append_left hjt]
          rw [hget]
          exact hpre j hjl hji
    · rw [dif_neg h]
      have hle : l.length ≤ i := by omega
      rw [List.take_of_length_le hle, List.drop_eq_nil_of_le hle]
      simp

/-- Helper form of the loop correctness, usable by later developments. -/
theorem rejectChecks_filter (records : List CheckConfig)
    (predicate : CheckConfig → Bool) :
    rejectChecks records predicate = records.filter predicate := by
  unfold rejectChecks
  rw [rejectChecksAux_eq predicate records.length 0 records (by omega)
    (fun j hj hji => absurd hji (Nat.not_lt_zero j))]
  simp

/-- C3: For every input list of resources and every read predicate, the filter
used by `ListResources` (`rejectChecks`) produces exactly the subsequence of
elements for which the predicate holds — `List.filter` — preserving original
relative order, with no element omitted and no element duplicated, including
when two or more consecutive elements fail the predicate. -/
theorem rejectChecks_eq_filter (records : List CheckConfig)
    (predicate : CheckConfig → Bool) :
    rejectChecks records predicate = records.filter predicate :=
  rejectChecks_filter records predicate

end Checks

namespace Checks

/-! ### Concrete fixtures for witnesses and refuting evaluations -/

/-- A stored check named `a`. -/
def cA : CheckConfig := ⟨"a", ""⟩

/-- A capability set granting everything. -/
def abAll : Abilities := ⟨true, fun _ => true, fun _ => true, fun _ => true, true⟩

/-- A capability set granting everything except `list`. -/
def abNoList : Abilities := ⟨false, fun _ => true, fun _ => true, fun _ => true, true⟩

/-- A validator accepting every candidate. -/
def validateAll : CheckConfig → Option String := fun _ => none

/-- A single-resource marshaller that always succeeds (rendering the name). -/
def marshalName : CheckConfig → Except String String := fun c => .ok c.name

/-- A collection marshaller that always succeeds (rendering the names). -/
def marshalNames : List CheckConfig → Except String String :=
  fun l => .ok (String.intercalate "," (l.map CheckConfig.name))

/-- A store holding exactly the check `a`, with no injected backend failure. -/
def stA : Store := { checks := [cA] }

/-- C8: For every ListResources request (GET `/checks`) by a caller lacking the
list capability, the handler responds unauthorized and performs no store
access: `GetCheckConfigs` is never called and the store is untouched. -/
theorem many_unauthorized_no_store_access (ab : Abilities) (st : Store)
    (marshalList : List CheckConfig → Except String String)
    (h : ab.canList = false) :
    many .get ab st marshalList = ([.unauthorized], [], st) := by
  simp [many, h]

/-- Witness for C8 at a concrete caller and store. -/
theorem many_unauthorized_no_store_access_witness :
    many .get abNoList stA marshalNames = ([.unauthorized], [], stA) :=
  many_unauthorized_no_store_access abNoList stA marshalNames rfl

/-- C6: For every upsert request (PUT or POST) whose body fails to decode or
whose decoded candidate fails self-validation, the handler returns a 400 error
and aborts: the outcome is the same for every capability set (so no capability
predicate can influence it), no store call is made, and the store is
unchanged. -/
theorem upsert_invalid_body_aborts (method : Method) (name : String)
    (validate : CheckConfig → Option String) (ab : Abilities) (st : Store)
    (marshal : CheckConfig → Except String String)
    (hm : method = .put ∨ method = .post) :
    (∀ msg, single method name (.decodeError msg) validate ab st marshal
        = ([.httpError msg 400], [], st)) ∧
    (∀ c msg, validate c = some msg →
      single method name (.decoded c) validate ab st marshal
        = ([.httpError msg 400], [], st)) := by
  rcases hm with h | h <;> subst h <;>
    exact ⟨fun msg => by simp [single, upsertBranch],
      fun c msg hv => by simp [single, upsertBranch, hv]⟩

/-- Witness for C6: a malformed body to PUT `/checks/z`. -/
theorem upsert_invalid_body_aborts_witness :
    single .put "z" (.decodeError "unexpected end of JSON input") validateAll
        abAll stA marshalName
      = ([.httpError "unexpected end of JSON input" 400], [], stA) :=
  (upsert_invalid_body_aborts .put "z" validateAll abAll stA marshalName
    (Or.inl rfl)).1 "unexpected end of JSON input"

/-- C7: For every GetResource request whose store lookup succeeds: a missing
name yields NotFound (404) for every capability set — the existence check
comes before any authorization; an existing resource whose serialization
succeeds yields unauthorized when the instance-scoped read capability fails,
and the serialized resource when it holds. -/
theorem getResource_spec (name : String) (body : BodyOutcome)
    (validate : CheckConfig → Option String) (ab : Abilities) (st : Store)
    (marshal : CheckConfig → Except String String)
    (hlk : st.getByNameErr = none) :
    (findCheck st.checks name = none →
      single .get name body validate ab st marshal
        = ([.notFound], [.getByName name], st)) ∧
    (∀ c bs, findCheck st.checks name = some c → marshal c = .ok bs →
      ab.canRead c = false →
      single .get name body validate ab st marshal
        = ([.unauthorized], [.getByName name], st)) ∧
    (∀ c bs, findCheck st.checks name = some c → marshal c = .ok bs →
      ab.canRead c = true →
      single .get name body validate ab st marshal
        = ([.write bs], [.getByName name], st)) := by
  refine ⟨fun hn => ?_, fun c bs hc hm hr => ?_, fun c bs hc hm hr => ?_⟩ <;>
    simp [single, hlk, *]

/-- Witness for C7: `GetResource` of a missing name under a full-capability
caller still yields NotFound. -/
theorem getResource_spec_witness :
    single .get "missing" (.decodeError "") validateAll abAll stA marshalName
      = ([.notFound], [.getByName "missing"], stA) :=
  (getResource_spec "missing" (.decodeError "") validateAll abAll stA
    marshalName rfl).1 (by decide)

end Checks

namespace Checks

/-- C10: The upsert branch never uses the path's `name` route variable: the
handler's entire outcome — response, store calls, final store — is independent
of it, and on a successful upsert the store write is performed for the decoded
body's check (hence under the body's name), whatever the path name was. -/
theorem upsert_ignores_path_name (method : Method) (name name2 : String)
    (body : BodyOutcome) (validate : CheckConfig → Option String)
    (ab : Abilities) (st : Store) (marshal : CheckConfig → Except String String)
    (hm : method = .put ∨ method = .post) :
    single method name body validate ab st marshal
      = single method name2 body validate ab st marshal ∧
    (∀ c, body = .decoded c → validate c = none → ab.canCreate c = true →
      st.updateErr = none →
      single method name body validate ab st marshal
        = ([], [.update c], { st with checks := upsertByName st.checks c })) := by
  rcases hm with h | h <;> subst h <;>
    refine ⟨by simp [single], fun c hb hv hc hu => ?_⟩ <;>
      (subst hb; simp [single, upsertBranch, hv, hc, hu])

/-- A decoded candidate whose name differs from the request path's name. -/
def cBodyY : CheckConfig := ⟨"body-y", ""⟩

/-- Witness for C10: a PUT to path name `path-x` whose body is named `body-y`
upserts `body-y`. -/
theorem upsert_ignores_path_name_witness :
    single .put "path-x" (.decoded cBodyY) validateAll abAll stA marshalName
      = ([], [.update cBodyY],
          { stA with checks := upsertByName stA.checks cBodyY }) :=
  (upsert_ignores_path_name .put "path-x" "other" (.decoded cBodyY) validateAll
    abAll stA marshalName (Or.inl rfl)).2 cBodyY rfl rfl rfl rfl

/-- A stored check named `y`, old payload. -/
def cYold : CheckConfig := ⟨"y", "old"⟩

/-- A decoded candidate named `y`, new payload. -/
def cYnew : CheckConfig := ⟨"y", "new"⟩

/-- A store holding exactly the check `y` (old payload). -/
def stY : Store := { checks := [cYold] }

/-- A capability set with CanUpdate identically false but CanCreate true. -/
def abCreateNotUpdate : Abilities :=
  ⟨true, fun _ => true, fun _ => true, fun _ => false, true⟩

/-- A capability set with CanCreate identically false but CanUpdate true. -/
def abUpdateNotCreate : Abilities :=
  ⟨true, fun _ => true, fun _ => false, fun _ => true, true⟩

/-- C1 (refuting evaluation): a PUT to `/checks/y` while a check named `y` is
already stored performs no lookup — no `getByName` store call occurs in the
request — and evaluates the candidate against CanCreate, never CanUpdate: with
CanUpdate identically false the upsert still proceeds, while with CanCreate
false (CanUpdate true) the same request is rejected as unauthorized. -/
theorem upsert_put_no_lookup_always_create :
    single .put "y" (.decoded cYnew) validateAll abCreateNotUpdate stY
        marshalName
      = ([], [.update cYnew], { checks := [cYnew] }) ∧
    single .put "y" (.decoded cYnew) validateAll abUpdateNotCreate stY
        marshalName
      = ([.unauthorized], [], stY) := by
  constructor <;> rfl

/-- A stored check named `z`, old payload. -/
def cZold : CheckConfig := ⟨"z", "old"⟩

/-- A decoded candidate named `z`, new payload. -/
def cZnew : CheckConfig := ⟨"z", "new"⟩

/-- A store holding exactly the check `z` (old payload). -/
def stZ : Store := { checks := [cZold] }

/-- A capability set denying update (CanUpdate identically false) while
granting everything else. -/
def abDenyUpdate : Abilities :=
  ⟨true, fun _ => true, fun _ => true, fun _ => false, true⟩

/-- C5 (refuting evaluation): a capability-denying context — CanUpdate
identically false while a check named `z` exists in the store — still produces
a store mutation call on PUT `/checks/z`: the update call is issued and the
stored state for `z` changes. -/
theorem upsert_denied_update_still_writes :
    abDenyUpdate.canUpdate cZnew = false ∧
    findCheck stZ.checks "z" = some cZold ∧
    (single .put "z" (.decoded cZnew) validateAll abDenyUpdate stZ
      marshalName).2.1 = [.update cZnew] ∧
    (single .put "z" (.decoded cZnew) validateAll abDenyUpdate stZ
      marshalName).2.2 = { checks := [cZnew] } := by
  decide

/-- A collection marshaller that always fails. -/
def marshalBoom : List CheckConfig → Except String String :=
  fun _ => .error "boom"

/-- C4 (refuting evaluation): when serializing the filtered collection fails,
`many` writes the 500 error response and then — the error branch lacking a
return — still sets the Content-Type header and writes the (empty) body:
further header and body writes occur after the error is emitted. -/
theorem many_marshal_error_keeps_writing :
    many .get abAll stA marshalBoom
      = ([.httpError "boom" 500, .setHeader "Content-Type" "application/json",
          .write ""], [.getAll], stA) := by
  simp only [many, rejectChecks_filter]
  decide

end Checks

namespace Checks

/-- C2 counterexample: DELETE `/checks/x` with the delete capability granted,
no backend failure and no check named `x` stored: the controller itself
performs an existence check (the `getByName` store call) and responds 404
NotFound, and the store delete is never called — refuting both "no existence
check of its own" and "the only failure outcomes are 401/403 and 500". -/
theorem delete_missing_returns_404 :
    single .delete "x" (.decodeError "") validateAll abAll stA marshalName
      = ([.notFound], [.getByName "x"], stA) := by
  decide

/-- C2 amended: DeleteResource first checks the delete capability (failing
it: unauthorized, no store access); with the capability, the controller looks
the name up itself: a lookup backend failure is a 500 with no delete call, a
missing name is a 404 NotFound with no delete call, and only for an existing
resource is the store delete called — a backend failure there surfacing as
500, success deleting by name — so DELETE can fail with 401/403, 404 or
500. -/
theorem delete_spec (name : String) (body : BodyOutcome)
    (validate : CheckConfig → Option String) (ab : Abilities) (st : Store)
    (marshal : CheckConfig → Except String String) :
    (ab.canDelete = false →
      single .delete name body validate ab st marshal
        = ([.unauthorized], [], st)) ∧
    (∀ e, ab.canDelete = true → st.getByNameErr = some e →
      single .delete name body validate ab st marshal
        = ([.httpError e 500], [.getByName name], st)) ∧
    (ab.canDelete = true → st.getByNameErr = none →
      findCheck st.checks name = none →
      single .delete name body validate ab st marshal
        = ([.notFound], [.getByName name], st)) ∧
    (∀ c e, ab.canDelete = true → st.getByNameErr = none →
      findCheck st.checks name = some c → st.deleteErr = some e →
      single .delete name body validate ab st marshal
        = ([.httpError e 500], [.getByName name, .deleteByName name], st)) ∧
    (∀ c, ab.canDelete = true → st.getByNameErr = none →
      findCheck st.checks name = some c → st.deleteErr = none →
      single .delete name body validate ab st marshal
        = ([], [.getByName name, .deleteByName name],
            { st with checks := deleteByName st.checks name })) := by
  refine ⟨fun h => ?_, fun e h1 h2 => ?_, fun h1 h2 h3 => ?_,
    fun c e h1 h2 h3 h4 => ?_, fun c h1 h2 h3 h4 => ?_⟩ <;>
    simp [single, *]

/-- Witness for C2 amended: DELETE of the existing check `a` issues the lookup
and then the delete, by name. -/
theorem delete_spec_witness :
    single .delete "a" (.decodeError "") validateAll abAll stA marshalName
      = ([], [.getByName "a", .deleteByName "a"],
          { stA with checks := deleteByName stA.checks "a" }) :=
  (delete_spec "a" (.decodeError "") validateAll abAll stA
    marshalName).2.2.2.2 cA rfl rfl (by decide) rfl

/-- Whether a response event sets the `Content-Type: application/json`
header. -/
def RespEvent.isContentTypeJson : RespEvent → Bool
  | .setHeader "Content-Type" "application/json" => true
  | _ => false

/-- C9 counterexample: a successful single-resource GET of the existing check
`a` under a full-capability caller writes the serialized body while no
Content-Type header set occurs anywhere in the response. -/
theorem single_get_missing_content_type :
    (single .get "a" (.decodeError "") validateAll abAll stA marshalName
      = ([.write "a"], [.getByName "a"], stA)) ∧
    ((single .get "a" (.decodeError "") validateAll abAll stA
      marshalName).1.any RespEvent.isContentTypeJson) = false := by
  decide

/-- C9 amended: the collection response of GET `/checks` sets Content-Type to
application/json before writing the body, but the successful single-resource
GET response writes its body without setting any Content-Type header. -/
theorem content_type_only_on_collection (ab : Abilities) (st : Store)
    (marshalList : List CheckConfig → Except String String)
    (marshal : CheckConfig → Except String String) (name : String)
    (body : BodyOutcome) (validate : CheckConfig → Option String)
    (hl : ab.canList = true) (hg : st.getAllErr = none) (bs : String)
    (hm : marshalList (rejectChecks st.checks ab.canRead) = .ok bs) :
    many .get ab st marshalList
      = ([.setHeader "Content-Type" "application/json", .write bs],
          [.getAll], st) ∧
    (∀ c bs2, st.getByNameErr = none → findCheck st.checks name = some c →
      marshal c = .ok bs2 → ab.canRead c = true →
      single .get name body validate ab st marshal
        = ([.write bs2], [.getByName name], st) ∧
      ((single .get name body validate ab st marshal).1.any
        RespEvent.isContentTypeJson) = false) := by
  constructor
  · simp [many, hl, hg, hm]
  · intro c bs2 h1 h2 h3 h4
    have hres : single .get name body validate ab st marshal
        = ([.write bs2], [.getByName name], st) := by
      simp [single, h1, h2, h3, h4]
    refine ⟨hres, ?_⟩
    rw [hres]
    rfl

/-- Witness for C9 amended: the concrete collection response for the store
holding `a` carries the Content-Type header. -/
theorem content_type_only_on_collection_witness :
    many .get abAll stA marshalNames
      = ([.setHeader "Content-Type" "application/json", .write "a"],
          [.getAll], stA) :=
  (content_type_only_on_collection abAll stA marshalNames marshalName "a"
    (.decodeError "") validateAll rfl rfl "a"
    (by rw [rejectChecks_filter]; rfl)).1

end Checks
